import Mathlib

/-!
Shallow embedding of the core of the Pulse ICMP ping tool: the packet
codec (`Checksum`, `buildRequest`, reply parsing), the probe session
(`SendPing`, `Resolve`, `Statistics`) and the session state (`Pinger`),
translated from `internal/icmp/icmp.go`.

Modelling conventions:
* Go byte slices are `List Nat`; wherever the Go code reads a `byte`
  (`uint8`) into wider arithmetic, the model reduces the entry modulo 256
  at that point (a Go `byte` can only hold such values).
* `uint32` arithmetic that can wrap reduces modulo 2^32 at the same
  program points (`% 4294967296`); `uint16` conversions reduce modulo
  2^16; Go `int` is `Int`.
* Fallible operations return `Except`/`Option`; a Go runtime panic
  (out-of-range slice index, `make` with negative size) is `none`.
* I/O is an explicit environment: the datagrams a raw socket would
  deliver before the read deadline, and flags for socket-open and
  socket-write success.
-/

namespace Pulse

/-- The carry-folding loop of `Checksum`:
`for sum>>16 != 0 { sum = (sum & 0xffff) + (sum >> 16) }`. -/
def foldCarry (sum : Nat) : Nat :=
  if _h : sum >>> 16 = 0 then sum
  else foldCarry ((sum &&& 65535) + (sum >>> 16))
termination_by sum
decreasing_by
  have h16 : sum >>> 16 = sum / 65536 := by
    rw [Nat.shiftRight_eq_div_pow]
  have hand : sum &&& 65535 = sum % 65536 := by
    have := Nat.and_pow_two_sub_one_eq_mod sum 16
    norm_num at this
    exact this
  rw [h16, hand] at *
  omega

/-- The summation loop of `Checksum`: big-endian 16-bit words while two
bytes remain (`sum += uint32(b[i])<<8 | uint32(b[i+1])`), then an odd
trailing byte as the high byte of a padded word
(`sum += uint32(b[len(b)-1]) << 8`).  The accumulator is a `uint32`. -/
def icmpSumAux : List Nat → Nat → Nat
  | x :: y :: rest, sum =>
      icmpSumAux rest ((sum + (((x % 256) <<< 8) ||| (y % 256))) % 4294967296)
  | [x], sum => (sum + ((x % 256) <<< 8)) % 4294967296
  | [], sum => sum

/-- `Checksum` from `icmp.go`: one's-complement sum with carry folding;
`^uint16(sum)` is the bitwise complement, i.e. `65535 - sum` since
`foldCarry` leaves no bits above bit 15. -/
def Checksum (b : List Nat) : Nat :=
  65535 - foldCarry (icmpSumAux b 0)

/-- The big-endian 16-bit words of a byte sequence, a trailing odd byte
being the high byte of a zero-padded word. -/
def wordsOf : List Nat → List Nat
  | x :: y :: rest => ((x % 256) * 256 + (y % 256)) :: wordsOf rest
  | [x] => [(x % 256) * 256]
  | [] => []

/-- The checksum algorithm exactly as the specification words it
(claim-side definition, for comparison with `Checksum`): sum the
big-endian 16-bit words with an unbounded accumulator, fold all carries
above bit 15 until none remain, complement. -/
def checksumSpec (b : List Nat) : Nat :=
  65535 - foldCarry (wordsOf b).sum

/-- Bytes of the RFC 1071 worked example: the 16-bit words
0x4500 0x0073 0x0000 0x4000 0x4011 0x0000 0xc0a8 0x0001 0xc0a8 0x00c7. -/
def testVector : List Nat :=
  [0x45, 0x00, 0x00, 0x73, 0x00, 0x00, 0x40, 0x00, 0x40, 0x11,
   0x00, 0x00, 0xc0, 0xa8, 0x00, 0x01, 0xc0, 0xa8, 0x00, 0xc7]

/-- Writing a 16-bit checksum into bytes 2 and 3 (big-endian) of a
message, as the ICMP header layout places it. -/
def insertChecksum (b : List Nat) (c : Nat) : List Nat :=
  b.take 2 ++ [(c >>> 8) % 256, c % 256] ++ b.drop 4

/-! ### Arithmetic facts about the checksum loops -/

theorem shiftLeft_or_low (a b : Nat) (hb : b < 256) :
    a <<< 8 ||| b = a * 256 + b := by
  rw [Nat.shiftLeft_eq]
  have h := Nat.mul_add_lt_is_or (i := 8) (b := b) (by norm_num [hb]) a
  calc a * 2 ^ 8 ||| b = 2 ^ 8 * a ||| b := by ring_nf
    _ = 2 ^ 8 * a + b := h.symm
    _ = a * 256 + b := by ring

theorem foldCarry_lt (s : Nat) : foldCarry s < 65536 := by
  induction s using foldCarry.induct with
  | case1 s h => rw [foldCarry, dif_pos h]; rw [Nat.shiftRight_eq_div_pow] at h; omega
  | case2 s h ih => rw [foldCarry, dif_neg h]; exact ih

theorem foldCarry_eq_of_lt {s : Nat} (h : s < 65536) : foldCarry s = s := by
  rw [foldCarry, dif_pos]
  rw [Nat.shiftRight_eq_div_pow]
  omega

theorem foldCarry_mod (s : Nat) : foldCarry s % 65535 = s % 65535 := by
  induction s using foldCarry.induct with
  | case1 s h => rw [foldCarry, dif_pos h]
  | case2 s h ih =>
      rw [foldCarry, dif_neg h]
      rw [ih]
      have hand : s &&& 65535 = s % 65536 := by
        have := Nat.and_pow_two_sub_one_eq_mod s 16
        norm_num at this
        exact this
      rw [hand, Nat.shiftRight_eq_div_pow]
      norm_num
      omega

theorem foldCarry_of_multiple {s : Nat} (h0 : 0 < s) (h : s % 65535 = 0) :
    foldCarry s = 65535 := by
  induction s using foldCarry.induct with
  | case1 s hif =>
      rw [foldCarry, dif_pos hif]
      rw [Nat.shiftRight_eq_div_pow] at hif
      omega
  | case2 s hif ih =>
      rw [foldCarry, dif_neg hif]
      have hand : s &&& 65535 = s % 65536 := by
        have := Nat.and_pow_two_sub_one_eq_mod s 16
        norm_num at this
        exact this
      have h16 : s >>> 16 = s / 65536 := by
        rw [Nat.shiftRight_eq_div_pow]
      rw [h16] at hif
      apply ih
      · rw [hand, h16]; omega
      · rw [hand, h16]; omega

theorem icmpSumAux_eq (b : List Nat) :
    ∀ acc, acc < 4294967296 →
      icmpSumAux b acc = (acc + (wordsOf b).sum) % 4294967296 := by
  induction b using wordsOf.induct with
  | case1 x y rest ih =>
      intro acc hacc
      rw [icmpSumAux, wordsOf]
      rw [ih _ (Nat.mod_lt _ (by norm_num))]
      rw [shiftLeft_or_low _ _ (Nat.mod_lt _ (by norm_num))]
      conv_rhs => rw [List.sum_cons]
      omega
  | case2 x =>
      intro acc hacc
      rw [icmpSumAux, wordsOf]
      rw [Nat.shiftLeft_eq]
      simp only [List.sum_cons, List.sum_nil]
      ring_nf
  | case3 =>
      intro acc hacc
      rw [icmpSumAux, wordsOf]
      simp only [List.sum_nil]
      omega

theorem wordsOf_le (b : List Nat) : ∀ w ∈ wordsOf b, w ≤ 65535 := by
  induction b using wordsOf.induct with
  | case1 x y rest ih =>
      intro w hw
      rw [wordsOf] at hw
      rcases List.mem_cons.mp hw with h | h
      · subst h
        have := Nat.mod_lt x (y := 256) (by norm_num)
        have := Nat.mod_lt y (y := 256) (by norm_num)
        omega
      · exact ih w h
  | case2 x =>
      intro w hw
      rw [wordsOf] at hw
      rcases List.mem_cons.mp hw with h | h
      · subst h
        have := Nat.mod_lt x (y := 256) (by norm_num)
        omega
      · simp at h
  | case3 =>
      intro w hw
      rw [wordsOf] at hw
      simp at hw

theorem wordsOf_length (b : List Nat) : (wordsOf b).length = (b.length + 1) / 2 := by
  induction b using wordsOf.induct with
  | case1 x y rest ih => rw [wordsOf]; simp [ih]; omega
  | case2 x => rw [wordsOf]; simp
  | case3 => rw [wordsOf]; rfl

theorem foldCarry_step {s : Nat} (h : ¬ s >>> 16 = 0) :
    foldCarry s = foldCarry ((s &&& 65535) + (s >>> 16)) := by
  conv_lhs => rw [foldCarry]
  rw [dif_neg h]

theorem Checksum_unfold (b : List Nat) :
    Checksum b = 65535 - foldCarry (icmpSumAux b 0) := rfl

theorem checksumSpec_unfold (b : List Nat) :
    checksumSpec b = 65535 - foldCarry (wordsOf b).sum := rfl

/-! ### The packet codec -/

/-- `binary.BigEndian.PutUint64(payload[:8], uint64(now))`: the eight
big-endian bytes of the send timestamp. -/
def timestampBytes (now : Nat) : List Nat :=
  let t := now % 18446744073709551616
  [t >>> 56 % 256, t >>> 48 % 256, t >>> 40 % 256, t >>> 32 % 256,
   t >>> 24 % 256, t >>> 16 % 256, t >>> 8 % 256, t % 256]

/-- The internal checksum of `golang.org/x/net/icmp` (library code used by
`Message.Marshal`): same one's-complement sum but with byte order
`uint32(b[i+1])<<8 | uint32(b[i])`, a trailing byte added unshifted, and
exactly two folding steps before the complement. -/
def xnetSum : List Nat → Nat → Nat
  | x :: y :: rest, s => xnetSum rest ((s + (((y % 256) <<< 8) ||| (x % 256))) % 4294967296)
  | [x], s => (s + (x % 256)) % 4294967296
  | [], s => s

/-- `checksum` from `golang.org/x/net/icmp/message.go`. -/
def xnetChecksum (b : List Nat) : Nat :=
  let s1 := xnetSum b 0
  let s2 := (s1 >>> 16) + (s1 &&& 65535)
  let s3 := s2 + (s2 >>> 16)
  65535 - (s3 % 65536)

/-- `icmp.Echo.Marshal`: 2-byte identifier, 2-byte sequence (both Go
`int`s truncated through `uint16`), then the payload. -/
def echoBody (id seq : Int) (data : List Nat) : List Nat :=
  let id16 := (id % 65536).toNat
  let seq16 := (seq % 65536).toNat
  [id16 / 256, id16 % 256, seq16 / 256, seq16 % 256] ++ data

/-- `icmp.Message.Marshal` for an Echo message (the only shape the repo
builds: type 8/128, code 0, `icmp.Echo` body).  For IPv4 the library
checksum is computed over the zero-checksum header and written
little-endian into bytes 2 and 3 (`b[2] ^= byte(s); b[3] ^= byte(s>>8)`);
for IPv6 (nil pseudo-header) the bytes are returned with a zero checksum
field.  The `error` return of `Marshal` can only fire when the message
type is neither an IPv4 nor an IPv6 ICMP type, which never happens here,
so the `Except.error` branch is unreachable for these inputs. -/
def marshalEcho (isIPv6 : Bool) (id seq : Int) (data : List Nat) : Except String (List Nat) :=
  let mtype : Nat := if isIPv6 then 128 else 8
  let b := mtype :: 0 :: 0 :: 0 :: echoBody id seq data
  if isIPv6 then
    Except.ok b
  else
    let s := xnetChecksum b
    Except.ok ((b.set 2 (s % 256)).set 3 ((s >>> 8) % 256))

/-! ### The probe session state -/

/-- The `Pinger` struct.  Durations are nanosecond counts. -/
structure Pinger where
  Host : String
  Count : Int
  Interval : Nat
  Timeout : Nat
  PayloadSize : Int
  Verbose : Bool
  id : Nat
  isIPv6 : Bool
  addr : Option (List Nat)
  network : String
  sent : Nat
  received : Nat
  rtts : List Nat
deriving DecidableEq, Repr

/-- `NewPinger`: defaults, with the identifier the lower 16 bits of the
process id (`os.Getpid() & 0xffff`). -/
def NewPinger (host : String) (pid : Nat) : Pinger :=
  { Host := host, Count := 4, Interval := 1000000000, Timeout := 3000000000,
    PayloadSize := 56, Verbose := false, id := pid &&& 65535, isIPv6 := false,
    addr := none, network := "", sent := 0, received := 0, rtts := [] }

/-- `buildRequest`: payload of `PayloadSize` bytes carrying the send
timestamp, marshalled as an Echo Request.  `make([]byte, p.PayloadSize)`
panics for a negative size and `payload[:8]` is out of range for sizes
0–7, so the whole call is `none` exactly when `PayloadSize < 8`. -/
def buildRequest (p : Pinger) (seq : Int) (now : Nat) : Option (Except String (List Nat)) :=
  if p.PayloadSize < 8 then none
  else
    let payload := timestampBytes now ++ List.replicate (p.PayloadSize.toNat - 8) 0
    some (marshalEcho p.isIPv6 (p.id : Int) seq payload)

/-! ### Parsing inbound datagrams -/

/-- A parsed ICMP message body: `icmp.Echo` for echo request/reply types,
anything else collapsed to `other`.  (The x/net parser builds other body
types, or fails, for non-echo messages; `SendPing` discards every such
datagram at its type check, so only the echo shape is distinguished.) -/
inductive MsgBody where
  | echo (id seq : Nat) (data : List Nat)
  | other (data : List Nat)
deriving DecidableEq, Repr

/-- A parsed `icmp.Message`: type byte, code byte, body. -/
structure ICMPMsg where
  typ : Nat
  code : Nat
  body : MsgBody
deriving DecidableEq, Repr

/-- The message types parsed by `parseEcho` (`icmp.ParseMessage`'s table):
Echo / EchoReply for the given protocol. -/
def isEchoParsedType (proto typ : Nat) : Bool :=
  (proto == 1 && (typ == 8 || typ == 0)) || (proto == 58 && (typ == 128 || typ == 129))

/-- `icmp.ParseMessage`: at least a 4-byte header; echo bodies need at
least 4 more bytes (identifier and sequence, big-endian), the rest is
payload. -/
def parseMessage (proto : Nat) (b : List Nat) : Option ICMPMsg :=
  if b.length < 4 then none
  else if isEchoParsedType proto (b.getD 0 0 % 256) then
    if b.length < 8 then none
    else some ⟨b.getD 0 0 % 256, b.getD 1 0 % 256,
      .echo ((b.getD 4 0 % 256) * 256 + (b.getD 5 0 % 256))
            ((b.getD 6 0 % 256) * 256 + (b.getD 7 0 % 256)) (b.drop 8)⟩
  else some ⟨b.getD 0 0 % 256, b.getD 1 0 % 256, .other (b.drop 4)⟩

/-- The receive-loop acceptance test of `SendPing`: the datagram parses,
its type is the Echo Reply type for the session's family, its body is an
`icmp.Echo`, and identifier and sequence both match. -/
def isMatch (id : Nat) (isIPv6 : Bool) (seq : Int) (b : List Nat) : Bool :=
  match parseMessage (if isIPv6 then 58 else 1) b with
  | none => false
  | some m =>
    if m.typ ≠ (if isIPv6 then 129 else 0) then false
    else
      match m.body with
      | .echo id2 seq2 _ => id2 == id && (seq2 : Int) == seq
      | .other _ => false

/-- The same acceptance test, stated as the claim words it. -/
def matchesReply (id : Nat) (isIPv6 : Bool) (seq : Int) (b : List Nat) : Prop :=
  ∃ m : ICMPMsg,
    parseMessage (if isIPv6 then 58 else 1) b = some m ∧
    m.typ = (if isIPv6 then 129 else 0) ∧
    ∃ id2 seq2 data2, m.body = .echo id2 seq2 data2 ∧ id2 = id ∧ (seq2 : Int) = seq

/-- A well-formed Echo Reply datagram with the given identifier and
sequence (both below 2^16) and payload. -/
def mkEchoReply (isIPv6 : Bool) (id seq : Nat) (data : List Nat) : List Nat :=
  (if isIPv6 then 129 else 0) :: 0 :: 0 :: 0 ::
    id / 256 :: id % 256 :: seq / 256 :: seq % 256 :: data

/-! ### One probe: SendPing -/

/-- `Result` of a single ping. -/
structure Result where
  Seq : Int
  RTT : Nat
  Received : Bool
  Error : Option String
deriving DecidableEq, Repr

/-- One datagram delivered by the socket before the read deadline, with
the value `time.Since(sendTime)` has at the moment it is read. -/
structure Datagram where
  bytes : List Nat
  rtt : Nat
deriving DecidableEq, Repr

/-- The environment of one `SendPing` call: whether `icmp.ListenPacket`
succeeds, whether `conn.WriteTo` succeeds, the wall clock at build time,
and the datagrams read before the deadline expires (the deadline itself
is the end of the list: the next read returns the timeout error). -/
structure ProbeEnv where
  listenOk : Bool
  writeOk : Bool
  now : Nat
  datagrams : List Datagram
deriving DecidableEq, Repr

/-- The receive loop of `SendPing`: read datagrams until one matches
(update `received` and `rtts`, return `Received = true`) or the deadline
elapses (return `Received = false` with no error). -/
def recvLoop (p : Pinger) (seq : Int) : List Datagram → Result × Pinger
  | [] => (⟨seq, 0, false, none⟩, p)
  | dg :: rest =>
    if isMatch p.id p.isIPv6 seq dg.bytes then
      (⟨seq, dg.rtt, true, none⟩,
       { p with received := p.received + 1, rtts := p.rtts ++ [dg.rtt] })
    else recvLoop p seq rest

/-- `SendPing`: listen, build, write (counting `sent` only after a
successful write), then the deadline-bounded receive loop.  `none` is the
panic of `buildRequest` propagating. -/
def SendPing (p : Pinger) (seq : Int) (env : ProbeEnv) : Option (Result × Pinger) :=
  if !env.listenOk then some (⟨seq, 0, false, some "listen"⟩, p)
  else
    match buildRequest p seq env.now with
    | none => none
    | some (Except.error _) => some (⟨seq, 0, false, some "build packet"⟩, p)
    | some (Except.ok _) =>
      if !env.writeOk then some (⟨seq, 0, false, some "write"⟩, p)
      else recvLoop { p with sent := p.sent + 1 } seq env.datagrams

/-! ### Resolve -/

/-- `net.IP.To4`: a 4-byte address, or the tail of a 16-byte
IPv4-in-IPv6 (`::ffff:a.b.c.d`) address. -/
def To4 (ip : List Nat) : Option (List Nat) :=
  if ip.length = 4 then some ip
  else if ip.length = 16 ∧ (ip.take 10).all (fun v => v == 0) = true ∧
          ip.getD 10 0 = 255 ∧ ip.getD 11 0 = 255 then
    some (ip.drop 12)
  else none

/-- `net.IP.To16`: 4-byte addresses map into `::ffff:0:0/96`, 16-byte
addresses are themselves, anything else is `nil`. -/
def To16 (ip : List Nat) : Option (List Nat) :=
  if ip.length = 4 then some ([0, 0, 0, 0, 0, 0, 0, 0, 0, 0, 255, 255] ++ ip)
  else if ip.length = 16 then some ip
  else none

/-- The address-selection logic of `Resolve` over the lookup result:
first address with a `To4` form wins (family IPv4); otherwise the first
address with a `To16` form (family IPv6); otherwise the error. -/
def resolveIPs (ips : List (List Nat)) : Except String (List Nat × Bool) :=
  match ips.findSome? To4 with
  | some ip4 => Except.ok (ip4, false)
  | none =>
    match ips.find? (fun ip => (To16 ip).isSome) with
    | some ip => Except.ok (ip, true)
    | none => Except.error "no usable IP address"

/-- `Resolve`: `net.LookupIP` (`none` = lookup error) then address
selection, setting `addr`, `network` and `isIPv6` on success. -/
def Resolve (p : Pinger) (lookup : Option (List (List Nat))) : Except String Pinger :=
  match lookup with
  | none => Except.error "lookup"
  | some ips =>
    match resolveIPs ips with
    | Except.ok (a, false) =>
        Except.ok { p with addr := some a, network := "ip4:icmp", isIPv6 := false }
    | Except.ok (a, true) =>
        Except.ok { p with addr := some a, network := "ip6:ipv6-icmp", isIPv6 := true }
    | Except.error e => Except.error e

/-! ### Statistics -/

/-- `Stats`.  `Lost` is a Go `int` subtraction; `Loss` is a `float64`
quotient, modelled exactly as a rational. -/
structure Stats where
  Sent : Nat
  Received : Nat
  Lost : Int
  Loss : Rat
  Min : Nat
  Max : Nat
  Avg : Nat
deriving DecidableEq, Repr

/-- The `for _, r := range p.rtts` loop of `Statistics`: running
minimum, maximum and total. -/
def statsLoop (mn mx total : Nat) : List Nat → Nat × Nat × Nat
  | [] => (mn, mx, total)
  | r :: rest =>
      statsLoop (if r < mn then r else mn) (if mx < r then r else mx) (total + r) rest

/-- `Statistics`: counters, loss percentage (`0` when nothing was sent),
and min/avg/max over the recorded round-trip times (left zero when the
list is empty). -/
def Statistics (p : Pinger) : Stats :=
  let lost : Int := (p.sent : Int) - (p.received : Int)
  let loss : Rat := if p.sent > 0 then (lost : Rat) / (p.sent : Rat) * 100 else 0
  match p.rtts with
  | [] => ⟨p.sent, p.received, lost, loss, 0, 0, 0⟩
  | r0 :: _ =>
    let res := statsLoop r0 r0 0 p.rtts
    ⟨p.sent, p.received, lost, loss, res.1, res.2.1, res.2.2 / p.rtts.length⟩

/-! ### Whole sessions -/

/-- One step of a session: the CLI's field configuration, a `Resolve`
call, a `SendPing` call, or a (state-free) `Statistics` call. -/
inductive SessEvent where
  | configEv (count : Int) (interval timeout : Nat) (size : Int) (verbose : Bool)
  | resolveEv (lookup : Option (List (List Nat)))
  | pingEv (seq : Int) (env : ProbeEnv)
  | statsEv
deriving Repr

/-- Effect of one session event on the `Pinger` (a failed `Resolve`
leaves the state as it was; `none` is a `SendPing` panic). -/
def stepEvent (p : Pinger) : SessEvent → Option Pinger
  | .configEv c i t s v =>
      some { p with Count := c, Interval := i, Timeout := t, PayloadSize := s, Verbose := v }
  | .resolveEv lookup =>
      match Resolve p lookup with
      | Except.ok p2 => some p2
      | Except.error _ => some p
  | .pingEv seq env => (SendPing p seq env).map Prod.snd
  | .statsEv => some p

/-- Run a list of session events from a state. -/
def runEvents (p : Pinger) : List SessEvent → Option Pinger
  | [] => some p
  | e :: es =>
      match stepEvent p e with
      | none => none
      | some p2 => runEvents p2 es

/-! ### Facts about the codec -/

theorem marshalEcho_ok (isIPv6 : Bool) (id seq : Int) (data : List Nat) :
    ∃ pkt, marshalEcho isIPv6 id seq data = Except.ok pkt ∧
      pkt.length = 8 + data.length := by
  cases isIPv6 with
  | false =>
      refine ⟨_, rfl, ?_⟩
      simp [echoBody, List.length_set]
      omega
  | true =>
      refine ⟨_, rfl, ?_⟩
      simp [echoBody]
      omega

theorem marshalEcho_ne_error (isIPv6 : Bool) (id seq : Int) (data : List Nat) (e : String) :
    marshalEcho isIPv6 id seq data ≠ Except.error e := by
  cases isIPv6 <;> simp [marshalEcho]

theorem buildRequest_none_iff (p : Pinger) (seq : Int) (now : Nat) :
    buildRequest p seq now = none ↔ p.PayloadSize < 8 := by
  unfold buildRequest
  by_cases h : p.PayloadSize < 8 <;> simp [h]

theorem buildRequest_ok (p : Pinger) (seq : Int) (now : Nat) (h : 8 ≤ p.PayloadSize) :
    ∃ pkt, buildRequest p seq now = some (Except.ok pkt) ∧
      (pkt.length : Int) = 8 + p.PayloadSize := by
  unfold buildRequest
  rw [if_neg (by omega)]
  obtain ⟨pkt, hpkt, hlen⟩ :=
    marshalEcho_ok p.isIPv6 (p.id : Int) seq
      (timestampBytes now ++ List.replicate (p.PayloadSize.toNat - 8) 0)
  refine ⟨pkt, by simp only [hpkt], ?_⟩
  have h8 : (timestampBytes now).length = 8 := by
    simp [timestampBytes]
  rw [hlen]
  simp [h8]
  omega

/-! ### Facts about the receive loop -/

theorem recvLoop_state (p : Pinger) (seq : Int) (dgs : List Datagram) :
    (recvLoop p seq dgs).2.sent = p.sent ∧
    (recvLoop p seq dgs).2.received =
      p.received + (if (recvLoop p seq dgs).1.Received then 1 else 0) ∧
    (recvLoop p seq dgs).2.rtts.length =
      p.rtts.length + (if (recvLoop p seq dgs).1.Received then 1 else 0) := by
  induction dgs with
  | nil => simp [recvLoop]
  | cons dg rest ih =>
      by_cases h : isMatch p.id p.isIPv6 seq dg.bytes = true
      · simp [recvLoop, h]
      · rw [recvLoop, if_neg h]
        exact ih

theorem recvLoop_received_iff (p : Pinger) (seq : Int) (dgs : List Datagram) :
    (recvLoop p seq dgs).1.Received = true ↔
      ∃ dg ∈ dgs, isMatch p.id p.isIPv6 seq dg.bytes = true := by
  induction dgs with
  | nil => simp [recvLoop]
  | cons dg rest ih =>
      by_cases h : isMatch p.id p.isIPv6 seq dg.bytes = true
      · simp [recvLoop, h]
      · rw [recvLoop, if_neg h]
        rw [ih]
        constructor
        · rintro ⟨d, hd, hm⟩
          exact ⟨d, List.mem_cons_of_mem _ hd, hm⟩
        · rintro ⟨d, hd, hm⟩
          rcases List.mem_cons.mp hd with rfl | hd2
          · exact absurd hm h
          · exact ⟨d, hd2, hm⟩

theorem recvLoop_nomatch (p : Pinger) (seq : Int) (dgs : List Datagram)
    (h : ∀ dg ∈ dgs, ¬ isMatch p.id p.isIPv6 seq dg.bytes = true) :
    recvLoop p seq dgs = (⟨seq, 0, false, none⟩, p) := by
  induction dgs with
  | nil => rfl
  | cons dg rest ih =>
      rw [recvLoop, if_neg (h dg (List.mem_cons_self dg rest))]
      exact ih fun d hd => h d (List.mem_cons_of_mem _ hd)

theorem recvLoop_error_none (p : Pinger) (seq : Int) (dgs : List Datagram) :
    (recvLoop p seq dgs).1.Error = none := by
  induction dgs with
  | nil => rfl
  | cons dg rest ih =>
      by_cases h : isMatch p.id p.isIPv6 seq dg.bytes = true
      · simp [recvLoop, h]
      · rw [recvLoop, if_neg h]
        exact ih

/-! ### Case analysis of SendPing -/

theorem SendPing_listenFail (p : Pinger) (seq : Int) (env : ProbeEnv)
    (hl : env.listenOk = false) :
    SendPing p seq env = some (⟨seq, 0, false, some "listen"⟩, p) := by
  unfold SendPing
  rw [hl]
  rfl

theorem SendPing_writeFail (p : Pinger) (seq : Int) (env : ProbeEnv)
    (hl : env.listenOk = true) (hw : env.writeOk = false) (hsz : 8 ≤ p.PayloadSize) :
    SendPing p seq env = some (⟨seq, 0, false, some "write"⟩, p) := by
  unfold SendPing
  rw [hl]
  obtain ⟨pkt, hpkt, -⟩ := buildRequest_ok p seq env.now hsz
  rw [hpkt, hw]
  rfl

theorem SendPing_writeOk (p : Pinger) (seq : Int) (env : ProbeEnv)
    (hl : env.listenOk = true) (hw : env.writeOk = true) (hsz : 8 ≤ p.PayloadSize) :
    SendPing p seq env =
      some (recvLoop { p with sent := p.sent + 1 } seq env.datagrams) := by
  unfold SendPing
  rw [hl]
  obtain ⟨pkt, hpkt, -⟩ := buildRequest_ok p seq env.now hsz
  rw [hpkt, hw]
  rfl

theorem SendPing_snd_cases (p : Pinger) (seq : Int) (env : ProbeEnv)
    (r : Result) (p2 : Pinger) (h : SendPing p seq env = some (r, p2)) :
    p2 = p ∨ p2 = (recvLoop { p with sent := p.sent + 1 } seq env.datagrams).2 := by
  unfold SendPing at h
  cases hl : env.listenOk with
  | false => rw [hl] at h; simp at h; left; exact h.2.symm
  | true =>
      rw [hl] at h
      simp only [Bool.not_true, Bool.false_eq_true, if_false] at h
      cases hbr : buildRequest p seq env.now with
      | none => rw [hbr] at h; simp at h
      | some res =>
          rw [hbr] at h
          cases res with
          | error e => simp at h; left; exact h.2.symm
          | ok pkt =>
              simp only at h
              cases hw : env.writeOk with
              | false => rw [hw] at h; simp at h; left; exact h.2.symm
              | true =>
                  rw [hw] at h
                  simp only [Bool.not_true, Bool.false_eq_true, if_false] at h
                  right
                  injection h with h2
                  rw [h2]

/-! ### Facts about reply matching -/

theorem isMatch_iff (id : Nat) (v6 : Bool) (seq : Int) (b : List Nat) :
    isMatch id v6 seq b = true ↔ matchesReply id v6 seq b := by
  unfold isMatch matchesReply
  cases hp : parseMessage (if v6 = true then 58 else 1) b with
  | none => simp [hp]
  | some m =>
      simp only [hp, Option.some.injEq]
      obtain ⟨typ, code, body⟩ := m
      by_cases ht : typ = (if v6 = true then 129 else 0)
      · rw [if_neg (show ¬ typ ≠ (if v6 = true then 129 else 0) from by simp [ht])]
        cases body with
        | echo id2 seq2 d =>
            simp only [Bool.and_eq_true, beq_iff_eq]
            constructor
            · rintro ⟨h1, h2⟩
              exact ⟨⟨typ, code, .echo id2 seq2 d⟩, rfl, ht, id2, seq2, d, rfl, h1, h2⟩
            · rintro ⟨m2, hm2, -, i2, s2, d2, hbody, h1, h2⟩
              rw [← hm2] at hbody
              injection hbody with e1 e2 e3
              exact ⟨by rw [e1]; exact h1, by rw [e2]; exact h2⟩
        | other d =>
            simp only [Bool.false_eq_true, false_iff]
            rintro ⟨m2, hm2, -, i2, s2, d2, hbody, -, -⟩
            rw [← hm2] at hbody
            exact MsgBody.noConfusion hbody
      · rw [if_pos (show typ ≠ (if v6 = true then 129 else 0) from ht)]
        simp only [Bool.false_eq_true, false_iff]
        rintro ⟨m2, hm2, htyp2, -⟩
        rw [← hm2] at htyp2
        exact ht htyp2

theorem parse_mkEchoReply (v6 : Bool) (id seq : Nat) (data : List Nat)
    (hid : id < 65536) (hseq : seq < 65536) :
    parseMessage (if v6 = true then 58 else 1) (mkEchoReply v6 id seq data) =
      some ⟨(if v6 = true then 129 else 0), 0, .echo id seq data⟩ := by
  cases v6 with
  | false =>
      simp only [mkEchoReply, parseMessage, isEchoParsedType, if_false]
      norm_num
      constructor <;> omega
  | true =>
      simp only [mkEchoReply, parseMessage, isEchoParsedType, if_true]
      norm_num
      constructor <;> omega

theorem mkEchoReply_not_matches (v6 : Bool) (id : Nat) (seq : Int)
    (id2 seq2 : Nat) (data : List Nat) (hid2 : id2 < 65536) (hseq2 : seq2 < 65536)
    (hne : id2 ≠ id ∨ (seq2 : Int) ≠ seq) :
    ¬ matchesReply id v6 seq (mkEchoReply v6 id2 seq2 data) := by
  rintro ⟨m, hm, htyp, i3, s3, d3, hbody, hi, hs⟩
  rw [parse_mkEchoReply v6 id2 seq2 data hid2 hseq2] at hm
  injection hm with hm
  rw [← hm] at hbody
  injection hbody with e1 e2 e3
  rcases hne with h | h
  · exact h (by rw [e1]; exact hi)
  · exact h (by rw [e2]; exact hs)

theorem mkEchoReply_matches (v6 : Bool) (id seq : Nat) (data : List Nat)
    (hid : id < 65536) (hseq : seq < 65536) :
    matchesReply id v6 (seq : Int) (mkEchoReply v6 id seq data) := by
  exact ⟨_, parse_mkEchoReply v6 id seq data hid hseq, by cases v6 <;> rfl,
    id, seq, data, rfl, rfl, rfl⟩

/-! ### Facts about the statistics loop -/

theorem statsLoop_total (l : List Nat) :
    ∀ mn mx t, (statsLoop mn mx t l).2.2 = t + l.sum := by
  induction l with
  | nil => intro mn mx t; simp [statsLoop]
  | cons r rest ih =>
      intro mn mx t
      rw [statsLoop, ih]
      simp
      omega

theorem statsLoop_min (l : List Nat) :
    ∀ mn mx t, ((statsLoop mn mx t l).1 = mn ∨ (statsLoop mn mx t l).1 ∈ l) ∧
      (statsLoop mn mx t l).1 ≤ mn ∧ ∀ r ∈ l, (statsLoop mn mx t l).1 ≤ r := by
  induction l with
  | nil => intro mn mx t; simp [statsLoop]
  | cons r rest ih =>
      intro mn mx t
      rw [statsLoop]
      obtain ⟨hmem, hle, hall⟩ := ih (if r < mn then r else mn) (if mx < r then r else mx) (t + r)
      refine ⟨?_, ?_, ?_⟩
      · rcases hmem with h | h
        · by_cases hr : r < mn
          · right; rw [h, if_pos hr]; exact List.mem_cons_self r rest
          · left; rw [h, if_neg hr]
        · right; exact List.mem_cons_of_mem _ h
      · refine le_trans hle ?_
        by_cases hr : r < mn
        · rw [if_pos hr]; omega
        · rw [if_neg hr]
      · intro x hx
        rcases List.mem_cons.mp hx with rfl | hx2
        · refine le_trans hle ?_
          by_cases hr : x < mn
          · rw [if_pos hr]
          · rw [if_neg hr]; omega
        · exact hall x hx2

theorem statsLoop_max (l : List Nat) :
    ∀ mn mx t, ((statsLoop mn mx t l).2.1 = mx ∨ (statsLoop mn mx t l).2.1 ∈ l) ∧
      mx ≤ (statsLoop mn mx t l).2.1 ∧ ∀ r ∈ l, r ≤ (statsLoop mn mx t l).2.1 := by
  induction l with
  | nil => intro mn mx t; simp [statsLoop]
  | cons r rest ih =>
      intro mn mx t
      rw [statsLoop]
      obtain ⟨hmem, hle, hall⟩ := ih (if r < mn then r else mn) (if mx < r then r else mx) (t + r)
      refine ⟨?_, ?_, ?_⟩
      · rcases hmem with h | h
        · by_cases hr : mx < r
          · right; rw [h, if_pos hr]; exact List.mem_cons_self r rest
          · left; rw [h, if_neg hr]
        · right; exact List.mem_cons_of_mem _ h
      · refine le_trans ?_ hle
        by_cases hr : mx < r
        · rw [if_pos hr]; omega
        · rw [if_neg hr]
      · intro x hx
        rcases List.mem_cons.mp hx with rfl | hx2
        · refine le_trans ?_ hle
          by_cases hr : mx < x
          · rw [if_pos hr]
          · rw [if_neg hr]; omega
        · exact hall x hx2

/-! ### Facts about Resolve -/

theorem To4_isSome_To16 (ip : List Nat) (h : (To4 ip).isSome) : (To16 ip).isSome := by
  unfold To4 To16 at *
  by_cases h4 : ip.length = 4
  · rw [if_pos h4]; rfl
  · rw [if_neg h4] at h
    by_cases h16 : ip.length = 16
    · rw [if_neg h4, if_pos h16]; rfl
    · rw [if_neg] at h
      · simp at h
      · rintro ⟨hl, -⟩
        exact h16 hl

theorem resolveIPs_v4 (ips : List (List Nat)) (h : ∃ ip ∈ ips, (To4 ip).isSome) :
    ∃ a, resolveIPs ips = Except.ok (a, false) ∧ ∃ ip ∈ ips, To4 ip = some a := by
  unfold resolveIPs
  cases hfs : ips.findSome? To4 with
  | none =>
      exfalso
      obtain ⟨ip, hip, hsome⟩ := h
      have := List.findSome?_eq_none_iff.mp hfs ip hip
      rw [this] at hsome
      simp at hsome
  | some a =>
      exact ⟨a, rfl, List.exists_of_findSome?_eq_some hfs⟩

theorem resolveIPs_v6 (ips : List (List Nat)) (a : List Nat)
    (h : resolveIPs ips = Except.ok (a, true)) :
    (∀ ip ∈ ips, To4 ip = none) ∧ a ∈ ips ∧ (To16 a).isSome := by
  unfold resolveIPs at h
  cases hfs : ips.findSome? To4 with
  | some a4 => rw [hfs] at h; simp at h
  | none =>
      rw [hfs] at h
      refine ⟨List.findSome?_eq_none_iff.mp hfs, ?_⟩
      cases hfd : ips.find? (fun ip => (To16 ip).isSome) with
      | none => rw [hfd] at h; simp at h
      | some ip =>
          rw [hfd] at h
          simp only [Except.ok.injEq, Prod.mk.injEq] at h
          obtain ⟨rfl, -⟩ := h
          exact ⟨List.mem_of_find?_eq_some hfd, by simpa using List.find?_some hfd⟩

theorem resolveIPs_error_iff (ips : List (List Nat)) :
    (∃ e, resolveIPs ips = Except.error e) ↔ ∀ ip ∈ ips, To4 ip = none ∧ To16 ip = none := by
  unfold resolveIPs
  cases hfs : ips.findSome? To4 with
  | some a4 => simp only [reduceCtorEq, exists_false, false_iff]
               intro hall
               obtain ⟨ip, hip, hsome⟩ := List.exists_of_findSome?_eq_some hfs
               rw [(hall ip hip).1] at hsome
               exact Option.noConfusion hsome
  | none =>
      cases hfd : ips.find? (fun ip => (To16 ip).isSome) with
      | some ip =>
          simp only [reduceCtorEq, exists_false, false_iff]
          intro hall
          have h16 := List.find?_some hfd
          simp only [decide_eq_true_eq] at h16
          rw [(hall ip (List.mem_of_find?_eq_some hfd)).2] at h16
          simp at h16
      | none =>
          simp only [Except.error.injEq, exists_eq', true_iff]
          intro ip hip
          refine ⟨List.findSome?_eq_none_iff.mp hfs ip hip, ?_⟩
          have := List.find?_eq_none.mp hfd ip hip
          simp only [decide_eq_true_eq] at this
          exact Option.not_isSome_iff_eq_none.mp this

theorem Resolve_ok_counters (p : Pinger) (lookup : Option (List (List Nat))) (p2 : Pinger)
    (h : Resolve p lookup = Except.ok p2) :
    p2.sent = p.sent ∧ p2.received = p.received ∧ p2.rtts = p.rtts := by
  cases lookup with
  | none => simp [Resolve] at h
  | some ips =>
      simp only [Resolve] at h
      cases hres : resolveIPs ips with
      | error e => rw [hres] at h; simp at h
      | ok av =>
          obtain ⟨a, v6⟩ := av
          rw [hres] at h
          cases v6 <;> simp only at h <;> injection h with h <;> rw [← h] <;> exact ⟨rfl, rfl, rfl⟩

/-! ### The session invariant -/

/-- The invariant tying the counters together: one recorded round-trip
time per received reply, and never more receptions than transmissions. -/
def sessionInv (p : Pinger) : Prop :=
  p.rtts.length = p.received ∧ p.received ≤ p.sent

theorem sendPing_inv (p : Pinger) (seq : Int) (env : ProbeEnv) (r : Result) (p2 : Pinger)
    (hinv : sessionInv p) (h : SendPing p seq env = some (r, p2)) : sessionInv p2 := by
  rcases SendPing_snd_cases p seq env r p2 h with rfl | hrec
  · exact hinv
  · obtain ⟨hsent, hrecv, hlen⟩ :=
      recvLoop_state { p with sent := p.sent + 1 } seq env.datagrams
    have e1 : ({ p with sent := p.sent + 1 } : Pinger).received = p.received := rfl
    have e2 : ({ p with sent := p.sent + 1 } : Pinger).rtts = p.rtts := rfl
    have e3 : ({ p with sent := p.sent + 1 } : Pinger).sent = p.sent + 1 := rfl
    rw [e1] at hrecv
    rw [e2] at hlen
    rw [e3] at hsent
    obtain ⟨hl, hle⟩ := hinv
    subst hrec
    cases hb : (recvLoop { p with sent := p.sent + 1 } seq env.datagrams).1.Received with
    | true =>
        rw [hb] at hrecv hlen
        norm_num at hrecv hlen
        exact ⟨by rw [hlen, hrecv, hl], by rw [hrecv, hsent]; omega⟩
    | false =>
        rw [hb] at hrecv hlen
        norm_num at hrecv hlen
        exact ⟨by rw [hlen, hrecv, hl], by rw [hrecv, hsent]; omega⟩

theorem stepEvent_inv (p : Pinger) (e : SessEvent) (p2 : Pinger)
    (hinv : sessionInv p) (h : stepEvent p e = some p2) : sessionInv p2 := by
  cases e with
  | configEv c i t s v =>
      injection h with h
      rw [← h]
      exact hinv
  | resolveEv lookup =>
      simp only [stepEvent] at h
      cases hres : Resolve p lookup with
      | ok p3 =>
          rw [hres] at h
          injection h with h
          obtain ⟨h1, h2, h3⟩ := Resolve_ok_counters p lookup p3 hres
          rw [← h]
          exact ⟨by rw [h3, h2]; exact hinv.1, by rw [h2, h1]; exact hinv.2⟩
      | error e2 =>
          rw [hres] at h
          injection h with h
          rw [← h]
          exact hinv
  | pingEv seq env =>
      simp only [stepEvent] at h
      cases hsp : SendPing p seq env with
      | none => rw [hsp] at h; simp at h
      | some rp =>
          rw [hsp] at h
          obtain ⟨r, p3⟩ := rp
          injection h with h
          rw [← h]
          exact sendPing_inv p seq env r p3 hinv hsp
  | statsEv =>
      injection h with h
      rw [← h]
      exact hinv

theorem runEvents_inv (events : List SessEvent) :
    ∀ p p2, sessionInv p → runEvents p events = some p2 → sessionInv p2 := by
  induction events with
  | nil =>
      intro p p2 hinv h
      injection h with h
      rw [← h]
      exact hinv
  | cons e es ih =>
      intro p p2 hinv h
      rw [runEvents] at h
      cases hstep : stepEvent p e with
      | none => rw [hstep] at h; simp at h
      | some p3 =>
          rw [hstep] at h
          exact ih p3 p2 (stepEvent_inv p e p3 hinv hstep) h

theorem recvLoop_received_le (p : Pinger) (seq : Int) (dgs : List Datagram) :
    p.received ≤ (recvLoop p seq dgs).2.received ∧
    (recvLoop p seq dgs).2.received ≤ p.received + 1 := by
  obtain ⟨-, hrecv, -⟩ := recvLoop_state p seq dgs
  cases hb : (recvLoop p seq dgs).1.Received with
  | true => rw [hb] at hrecv; norm_num at hrecv; omega
  | false => rw [hb] at hrecv; norm_num at hrecv; omega

/-! ## The claims -/

/-- Claim C10: for every configured payload size strictly below 8
(0 through 7 as well as negative values) `buildRequest` — and therefore
`SendPing`, when the socket opens — returns neither a packet nor an error
value (the slice operations panic), so `buildRequest` is total exactly
under the precondition `PayloadSize ≥ 8`. -/
theorem claim_C10 :
    (∀ (p : Pinger) (seq : Int) (now : Nat),
      buildRequest p seq now = none ↔ p.PayloadSize < 8) ∧
    (∀ (p : Pinger) (seq : Int) (env : ProbeEnv),
      env.listenOk = true → p.PayloadSize < 8 → SendPing p seq env = none) := by
  refine ⟨buildRequest_none_iff, ?_⟩
  intro p seq env hl hsz
  unfold SendPing
  rw [hl, (buildRequest_none_iff p seq env.now).mpr hsz]
  rfl

/-- Claim C10 witness: the default `Pinger` reconfigured to payload size
5 panics in `SendPing` even though the socket opens. -/
theorem claim_C10_witness :
    ({ NewPinger "pulse.test" 9 with PayloadSize := 5 } : Pinger).PayloadSize < 8 ∧
    SendPing { NewPinger "pulse.test" 9 with PayloadSize := 5 } 1 ⟨true, true, 0, []⟩ = none :=
  ⟨by decide,
   claim_C10.2 { NewPinger "pulse.test" 9 with PayloadSize := 5 } 1 ⟨true, true, 0, []⟩
     rfl (by decide)⟩

/-- Claim C3, counterexample: payload size 0 is not negative and the
identifier (77) and sequence (1) fit in 16 bits, yet `buildRequest` does
not succeed with a packet — it panics (`none`), returning neither a
packet nor an `EncodingError`. -/
theorem claim_C3_counterexample :
    ({ NewPinger "example.com" 77 with PayloadSize := 0 } : Pinger).PayloadSize = 0 ∧
    ({ NewPinger "example.com" 77 with PayloadSize := 0 } : Pinger).id = 77 ∧
    buildRequest { NewPinger "example.com" 77 with PayloadSize := 0 } 1 0 = none :=
  ⟨rfl, rfl, rfl⟩

/-- Claim C3 as amended: packet construction never returns an encoding
error (identifier and sequence are silently truncated to 16 bits, not
rejected); for every payload size of at least 8 it succeeds with a packet
of 8 + PayloadSize bytes; for every payload size below 8 — negative or
0 through 7 — it panics instead of returning anything. -/
theorem claim_C3_amended :
    ∀ (p : Pinger) (seq : Int) (now : Nat),
      (∀ e, buildRequest p seq now ≠ some (Except.error e)) ∧
      (8 ≤ p.PayloadSize → ∃ pkt, buildRequest p seq now = some (Except.ok pkt) ∧
        (pkt.length : Int) = 8 + p.PayloadSize) ∧
      (p.PayloadSize < 8 → buildRequest p seq now = none) := by
  intro p seq now
  refine ⟨?_, fun h => buildRequest_ok p seq now h,
    fun h => (buildRequest_none_iff p seq now).mpr h⟩
  intro e hcontra
  unfold buildRequest at hcontra
  by_cases h : p.PayloadSize < 8
  · rw [if_pos h] at hcontra
    exact Option.noConfusion hcontra
  · rw [if_neg h] at hcontra
    simp only [Option.some.injEq] at hcontra
    exact marshalEcho_ne_error _ _ _ _ e hcontra

/-- Claim C3 witness: the defaults (payload size 56) build a 64-byte
packet and never an error. -/
theorem claim_C3_witness :
    8 ≤ (NewPinger "pulse.test" 3).PayloadSize ∧
    (∃ pkt, buildRequest (NewPinger "pulse.test" 3) 1 5 = some (Except.ok pkt) ∧
      (pkt.length : Int) = 8 + (NewPinger "pulse.test" 3).PayloadSize) :=
  ⟨by decide, (claim_C3_amended (NewPinger "pulse.test" 3) 1 5).2.1 (by decide)⟩

/-- Claim C1, counterexample: a failed `conn.WriteTo` returns a `Result`
carrying an error but leaves the whole state — including the `sent`
counter — unchanged at 0; the claimed increment of `sent` on a failed
transmission does not happen (`p.sent++` sits after the early return). -/
theorem claim_C1_counterexample :
    SendPing (NewPinger "example.com" 5) 1 ⟨true, false, 0, []⟩ =
      some (⟨1, 0, false, some "write"⟩, NewPinger "example.com" 5) ∧
    (NewPinger "example.com" 5).sent = 0 :=
  ⟨by decide, rfl⟩

/-- Claim C1 as amended: a call increments `sent` by exactly one iff the
transmission succeeds; a write failure yields a `Result` carrying an
error and leaves the state — both the `sent` and the `received`
counter — unchanged. -/
theorem claim_C1_amended :
    ∀ (p : Pinger) (seq : Int) (env : ProbeEnv),
      env.listenOk = true → 8 ≤ p.PayloadSize →
      (env.writeOk = false →
        SendPing p seq env = some (⟨seq, 0, false, some "write"⟩, p)) ∧
      (env.writeOk = true →
        ∃ r p2, SendPing p seq env = some (r, p2) ∧ p2.sent = p.sent + 1 ∧
          p.received ≤ p2.received ∧ p2.received ≤ p.received + 1) := by
  intro p seq env hl hsz
  refine ⟨fun hw => SendPing_writeFail p seq env hl hw hsz, ?_⟩
  intro hw
  rw [SendPing_writeOk p seq env hl hw hsz]
  obtain ⟨hsent, -, -⟩ := recvLoop_state { p with sent := p.sent + 1 } seq env.datagrams
  obtain ⟨hlo, hhi⟩ := recvLoop_received_le { p with sent := p.sent + 1 } seq env.datagrams
  exact ⟨_, _, rfl, hsent, hlo, hhi⟩

/-- Claim C1 witness: with the defaults, a successful write bumps `sent`
from 0 to 1. -/
theorem claim_C1_witness :
    (⟨true, true, 0, []⟩ : ProbeEnv).listenOk = true ∧
    8 ≤ (NewPinger "pulse.test" 5).PayloadSize ∧
    (∃ r p2, SendPing (NewPinger "pulse.test" 5) 1 ⟨true, true, 0, []⟩ = some (r, p2) ∧
      p2.sent = (NewPinger "pulse.test" 5).sent + 1 ∧
      (NewPinger "pulse.test" 5).received ≤ p2.received ∧
      p2.received ≤ (NewPinger "pulse.test" 5).received + 1) :=
  ⟨rfl, by decide,
   (claim_C1_amended (NewPinger "pulse.test" 5) 1 ⟨true, true, 0, []⟩ rfl (by decide)).2 rfl⟩

/-- Claim C5: when every datagram read before the deadline fails the
match, `SendPing` returns `received = false` with no error (and `sent`
still incremented) — the timeout outcome; a write or socket (listen)
failure instead always carries an error, so the two outcomes are
distinct. -/
theorem claim_C5 :
    ∀ (p : Pinger) (seq : Int) (env : ProbeEnv), 8 ≤ p.PayloadSize →
      (env.listenOk = true → env.writeOk = true →
        (∀ dg ∈ env.datagrams, ¬ matchesReply p.id p.isIPv6 seq dg.bytes) →
        SendPing p seq env = some (⟨seq, 0, false, none⟩, { p with sent := p.sent + 1 })) ∧
      (env.listenOk = true → env.writeOk = false →
        ∃ r, SendPing p seq env = some (r, p) ∧ r.Received = false ∧ r.Error ≠ none) ∧
      (env.listenOk = false →
        ∃ r, SendPing p seq env = some (r, p) ∧ r.Received = false ∧ r.Error ≠ none) := by
  intro p seq env hsz
  refine ⟨?_, ?_, ?_⟩
  · intro hl hw hnone
    rw [SendPing_writeOk p seq env hl hw hsz]
    rw [recvLoop_nomatch]
    intro dg hdg
    show ¬ isMatch p.id p.isIPv6 seq dg.bytes = true
    rw [isMatch_iff]
    exact hnone dg hdg
  · intro hl hw
    exact ⟨_, SendPing_writeFail p seq env hl hw hsz, rfl, by simp⟩
  · intro hl
    exact ⟨_, SendPing_listenFail p seq env hl, rfl, by simp⟩

/-- Claim C5 witness: a full timeout window with only a foreign datagram
(identifier 8, not 5) yields `received = false`, no error. -/
theorem claim_C5_witness :
    8 ≤ (NewPinger "pulse.test" 5).PayloadSize ∧
    SendPing (NewPinger "pulse.test" 5) 1
        ⟨true, true, 0, [⟨mkEchoReply false 8 1 [], 9⟩]⟩ =
      some (⟨1, 0, false, none⟩,
        { NewPinger "pulse.test" 5 with sent := (NewPinger "pulse.test" 5).sent + 1 }) :=
  ⟨by decide,
   (claim_C5 (NewPinger "pulse.test" 5) 1 ⟨true, true, 0, [⟨mkEchoReply false 8 1 [], 9⟩]⟩
       (by decide)).1 rfl rfl
     (by
       intro dg hdg
       rw [List.mem_singleton] at hdg
       rw [hdg]
       exact mkEchoReply_not_matches false 5 1 8 1 [] (by decide) (by decide)
         (Or.inl (by decide)))⟩

/-- Claim C4: `SendPing` reports `received = true` exactly when some
datagram read before the deadline parses, has the family Echo Reply
type, carries an `icmp.Echo` body, and matches both the session
identifier and the requested sequence; consequently a well-formed reply
with the right identifier but wrong sequence, or the right sequence but
a foreign identifier, never matches. -/
theorem claim_C4 :
    ∀ (p : Pinger) (seq : Int) (env : ProbeEnv),
      env.listenOk = true → env.writeOk = true → 8 ≤ p.PayloadSize →
      (∀ r p2, SendPing p seq env = some (r, p2) →
        (r.Received = true ↔ ∃ dg ∈ env.datagrams, matchesReply p.id p.isIPv6 seq dg.bytes)) ∧
      (∀ (id2 seq2 : Nat) (data : List Nat), id2 < 65536 → seq2 < 65536 →
        id2 ≠ p.id ∨ (seq2 : Int) ≠ seq →
        ¬ matchesReply p.id p.isIPv6 seq (mkEchoReply p.isIPv6 id2 seq2 data)) := by
  intro p seq env hl hw hsz
  constructor
  · intro r p2 h
    rw [SendPing_writeOk p seq env hl hw hsz] at h
    injection h with h
    have hr : r = (recvLoop { p with sent := p.sent + 1 } seq env.datagrams).1 := by
      rw [h]
    rw [hr, recvLoop_received_iff]
    simp only [isMatch_iff]
  · intro id2 seq2 data h1 h2 hne
    exact mkEchoReply_not_matches p.isIPv6 p.id seq id2 seq2 data h1 h2 hne

/-- Claim C4 witness: a correct reply to identifier 5, sequence 1 is the
only datagram, and the probe reports `received = true`; a reply with the
wrong sequence (2) never matches. -/
theorem claim_C4_witness :
    (∃ r p2,
      SendPing (NewPinger "pulse.test" 5) 1 ⟨true, true, 0, [⟨mkEchoReply false 5 1 [], 9⟩]⟩ =
        some (r, p2) ∧ r.Received = true) ∧
    ¬ matchesReply 5 false 1 (mkEchoReply false 5 2 []) := by
  constructor
  · refine ⟨_, _, rfl, ?_⟩
    have h := (claim_C4 (NewPinger "pulse.test" 5) 1
        ⟨true, true, 0, [⟨mkEchoReply false 5 1 [], 9⟩]⟩ rfl rfl (by decide)).1 _ _ rfl
    rw [h]
    exact ⟨⟨mkEchoReply false 5 1 [], 9⟩, List.mem_singleton.mpr rfl,
      mkEchoReply_matches false 5 1 [] (by decide) (by decide)⟩
  · exact (claim_C4 (NewPinger "pulse.test" 5) 1 ⟨true, true, 0, []⟩ rfl rfl (by decide)).2
      5 2 [] (by decide) (by decide) (Or.inr (by decide))

/-- Claim C7: `Resolve` prefers IPv4 — whenever the lookup result holds
any address with an IPv4 form it resolves to an IPv4 address with the
family flag left IPv4; it resolves to the IPv6 family only when no
address has an IPv4 form; and it fails exactly when no address of either
family is usable. -/
theorem claim_C7 :
    ∀ (p : Pinger) (ips : List (List Nat)),
      ((∃ ip ∈ ips, (To4 ip).isSome) →
        ∃ a, (∃ ip ∈ ips, To4 ip = some a) ∧
          Resolve p (some ips) =
            Except.ok { p with addr := some a, network := "ip4:icmp", isIPv6 := false }) ∧
      (∀ p2, Resolve p (some ips) = Except.ok p2 → p2.isIPv6 = true →
        (∀ ip ∈ ips, To4 ip = none) ∧
        ∃ a, a ∈ ips ∧ (To16 a).isSome ∧ p2.addr = some a) ∧
      ((∃ e, Resolve p (some ips) = Except.error e) ↔
        ∀ ip ∈ ips, To4 ip = none ∧ To16 ip = none) := by
  intro p ips
  refine ⟨?_, ?_, ?_⟩
  · intro h
    obtain ⟨a, hres, hwit⟩ := resolveIPs_v4 ips h
    refine ⟨a, hwit, ?_⟩
    simp only [Resolve, hres]
  · intro p2 hok hv6
    simp only [Resolve] at hok
    cases hres : resolveIPs ips with
    | error e => rw [hres] at hok; exact Except.noConfusion hok
    | ok av =>
        obtain ⟨a, v6⟩ := av
        rw [hres] at hok
        cases v6 with
        | false =>
            simp only at hok
            injection hok with hok
            rw [← hok] at hv6
            exact Bool.noConfusion hv6
        | true =>
            simp only at hok
            injection hok with hok
            obtain ⟨h4, hmem, h16⟩ := resolveIPs_v6 ips a hres
            exact ⟨h4, a, hmem, h16, by rw [← hok]⟩
  · rw [← resolveIPs_error_iff]
    constructor
    · rintro ⟨e, he⟩
      simp only [Resolve] at he
      cases hres : resolveIPs ips with
      | error e2 => exact ⟨e2, rfl⟩
      | ok av =>
          obtain ⟨a, v6⟩ := av
          rw [hres] at he
          cases v6 <;> simp only at he <;> exact Except.noConfusion he
    · rintro ⟨e, he⟩
      exact ⟨e, by simp only [Resolve, he]⟩

/-- Claim C7 witness: a lookup answering a 16-byte IPv6 address followed
by an IPv4 address still resolves to the IPv4 one, family IPv4. -/
theorem claim_C7_witness :
    (∃ ip ∈ [[0, 0, 0, 0, 0, 0, 0, 0, 0, 0, 0, 0, 0, 0, 0, 1], [10, 0, 0, 7]],
      (To4 ip).isSome) ∧
    (∃ a, (∃ ip ∈ [[0, 0, 0, 0, 0, 0, 0, 0, 0, 0, 0, 0, 0, 0, 0, 1], [10, 0, 0, 7]],
        To4 ip = some a) ∧
      Resolve (NewPinger "pulse.test" 5)
          (some [[0, 0, 0, 0, 0, 0, 0, 0, 0, 0, 0, 0, 0, 0, 0, 1], [10, 0, 0, 7]]) =
        Except.ok { NewPinger "pulse.test" 5 with
          addr := some a, network := "ip4:icmp", isIPv6 := false }) :=
  ⟨⟨[10, 0, 0, 7], by decide, by decide⟩,
   (claim_C7 (NewPinger "pulse.test" 5)
       [[0, 0, 0, 0, 0, 0, 0, 0, 0, 0, 0, 0, 0, 0, 0, 1], [10, 0, 0, 7]]).1
     ⟨[10, 0, 0, 7], by decide, by decide⟩⟩

/-- Claim C9: after any sequence of `NewPinger`, configuration,
`Resolve`, `SendPing` and `Statistics` steps that does not panic, the
recorded round-trip-time sequence has exactly `received` entries and
`received` never exceeds `sent`. -/
theorem claim_C9 :
    ∀ (host : String) (pid : Nat) (events : List SessEvent) (p2 : Pinger),
      runEvents (NewPinger host pid) events = some p2 →
      p2.rtts.length = p2.received ∧ p2.received ≤ p2.sent := by
  intro host pid events p2 h
  exact runEvents_inv events (NewPinger host pid) p2 ⟨rfl, Nat.le_refl 0⟩ h

/-- Claim C9 witness: a resolve, one answered probe and one timed-out
probe leave `rtts = [9]`, `received = 1`, `sent = 2`. -/
theorem claim_C9_witness :
    runEvents (NewPinger "pulse.test" 5)
        [SessEvent.resolveEv (some [[10, 0, 0, 7]]),
         SessEvent.pingEv 1 ⟨true, true, 0, [⟨mkEchoReply false 5 1 [], 9⟩]⟩,
         SessEvent.pingEv 2 ⟨true, true, 0, []⟩,
         SessEvent.statsEv] =
      some { NewPinger "pulse.test" 5 with
        addr := some [10, 0, 0, 7], network := "ip4:icmp",
        sent := 2, received := 1, rtts := [9] } ∧
    ({ NewPinger "pulse.test" 5 with
        addr := some [10, 0, 0, 7], network := "ip4:icmp",
        sent := 2, received := 1, rtts := [9] } : Pinger).rtts.length =
      ({ NewPinger "pulse.test" 5 with
        addr := some [10, 0, 0, 7], network := "ip4:icmp",
        sent := 2, received := 1, rtts := [9] } : Pinger).received ∧
    ({ NewPinger "pulse.test" 5 with
        addr := some [10, 0, 0, 7], network := "ip4:icmp",
        sent := 2, received := 1, rtts := [9] } : Pinger).received ≤
      ({ NewPinger "pulse.test" 5 with
        addr := some [10, 0, 0, 7], network := "ip4:icmp",
        sent := 2, received := 1, rtts := [9] } : Pinger).sent := by
  have h := claim_C9 "pulse.test" 5
    [SessEvent.resolveEv (some [[10, 0, 0, 7]]),
     SessEvent.pingEv 1 ⟨true, true, 0, [⟨mkEchoReply false 5 1 [], 9⟩]⟩,
     SessEvent.pingEv 2 ⟨true, true, 0, []⟩,
     SessEvent.statsEv]
    { NewPinger "pulse.test" 5 with
      addr := some [10, 0, 0, 7], network := "ip4:icmp",
      sent := 2, received := 1, rtts := [9] } (by decide)
  exact ⟨by decide, h.1, h.2⟩

theorem Statistics_nil (p : Pinger) (h : p.rtts = []) :
    Statistics p = ⟨p.sent, p.received, (p.sent : Int) - (p.received : Int),
      (if p.sent > 0 then
        ((((p.sent : Int) - (p.received : Int) : Int)) : Rat) / (p.sent : Rat) * 100 else 0),
      0, 0, 0⟩ := by
  unfold Statistics
  rw [h]

theorem Statistics_cons (p : Pinger) (r0 : Nat) (tl : List Nat) (h : p.rtts = r0 :: tl) :
    Statistics p = ⟨p.sent, p.received, (p.sent : Int) - (p.received : Int),
      (if p.sent > 0 then
        ((((p.sent : Int) - (p.received : Int) : Int)) : Rat) / (p.sent : Rat) * 100 else 0),
      (statsLoop r0 r0 0 (r0 :: tl)).1, (statsLoop r0 r0 0 (r0 :: tl)).2.1,
      (statsLoop r0 r0 0 (r0 :: tl)).2.2 / (r0 :: tl).length⟩ := by
  unfold Statistics
  rw [h]

theorem loss_formula (sent received : Nat) :
    (if sent > 0 then
      ((((sent : Int) - (received : Int) : Int)) : Rat) / (sent : Rat) * 100 else 0) =
    (if sent = 0 then 0 else
      100 * ((sent : Rat) - (received : Rat)) / (sent : Rat)) := by
  by_cases h0 : sent = 0
  · simp [h0]
  · rw [if_neg h0, if_pos (Nat.pos_of_ne_zero h0)]
    push_cast
    ring

/-- Claim C6: over any state satisfying the session invariant (`sent = N`
probes transmitted, `received = k ≤ N` matched, one recorded round-trip
time per match), `Statistics` reports `Sent = N`, `Received = k`,
`Lost = N - k`, a loss percentage of `100 (N - k) / N` (zero when `N`
is zero), zero-valued duration fields when nothing was received, and
otherwise the minimum, maximum and truncated mean over exactly the
recorded round-trip times. -/
theorem claim_C6 :
    ∀ p : Pinger, p.received ≤ p.sent → p.rtts.length = p.received →
      (Statistics p).Sent = p.sent ∧
      (Statistics p).Received = p.received ∧
      (Statistics p).Lost = (p.sent : Int) - (p.received : Int) ∧
      (Statistics p).Loss = (if p.sent = 0 then 0 else
        100 * ((p.sent : Rat) - (p.received : Rat)) / (p.sent : Rat)) ∧
      (p.received = 0 →
        (Statistics p).Min = 0 ∧ (Statistics p).Max = 0 ∧ (Statistics p).Avg = 0) ∧
      (0 < p.received →
        ((Statistics p).Min ∈ p.rtts ∧ ∀ r ∈ p.rtts, (Statistics p).Min ≤ r) ∧
        ((Statistics p).Max ∈ p.rtts ∧ ∀ r ∈ p.rtts, r ≤ (Statistics p).Max) ∧
        (Statistics p).Avg = p.rtts.sum / p.rtts.length) := by
  intro p hle hlen
  cases hr : p.rtts with
  | nil =>
      have hk : p.received = 0 := by rw [← hlen, hr]; rfl
      rw [Statistics_nil p hr]
      refine ⟨rfl, rfl, rfl, loss_formula p.sent p.received, fun _ => ⟨rfl, rfl, rfl⟩, ?_⟩
      intro hpos
      omega
  | cons r0 tl =>
      rw [Statistics_cons p r0 tl hr]
      refine ⟨rfl, rfl, rfl, loss_formula p.sent p.received, ?_, ?_⟩
      · intro hk
        rw [← hlen, hr] at hk
        simp at hk
      · intro hpos
        obtain ⟨hminmem, -, hminall⟩ := statsLoop_min (r0 :: tl) r0 r0 0
        obtain ⟨hmaxmem, -, hmaxall⟩ := statsLoop_max (r0 :: tl) r0 r0 0
        refine ⟨⟨?_, ?_⟩, ⟨?_, ?_⟩, ?_⟩
        · show (statsLoop r0 r0 0 (r0 :: tl)).1 ∈ r0 :: tl
          rcases hminmem with h | h
          · rw [h]; exact List.mem_cons_self r0 tl
          · exact h
        · intro r hrr
          exact hminall r hrr
        · show (statsLoop r0 r0 0 (r0 :: tl)).2.1 ∈ r0 :: tl
          rcases hmaxmem with h | h
          · rw [h]; exact List.mem_cons_self r0 tl
          · exact h
        · intro r hrr
          exact hmaxall r hrr
        · show (statsLoop r0 r0 0 (r0 :: tl)).2.2 / (r0 :: tl).length =
            (r0 :: tl).sum / (r0 :: tl).length
          rw [statsLoop_total (r0 :: tl) r0 r0 0, Nat.zero_add]

/-- Claim C6 witness: three probes sent, two answered (9 ns and 3 ns):
sent 3, received 2, lost 1, loss 100/3 %, min 3, max 9, avg 6. -/
theorem claim_C6_witness :
    ({ NewPinger "pulse.test" 5 with sent := 3, received := 2, rtts := [9, 3] } : Pinger).received ≤
      ({ NewPinger "pulse.test" 5 with sent := 3, received := 2, rtts := [9, 3] } : Pinger).sent ∧
    ({ NewPinger "pulse.test" 5 with sent := 3, received := 2, rtts := [9, 3] } : Pinger).rtts.length =
      ({ NewPinger "pulse.test" 5 with sent := 3, received := 2, rtts := [9, 3] } : Pinger).received ∧
    (Statistics { NewPinger "pulse.test" 5 with sent := 3, received := 2, rtts := [9, 3] }).Sent = 3 ∧
    (Statistics { NewPinger "pulse.test" 5 with sent := 3, received := 2, rtts := [9, 3] }).Received = 2 := by
  have h := claim_C6 { NewPinger "pulse.test" 5 with sent := 3, received := 2, rtts := [9, 3] }
    (by decide) (by decide)
  exact ⟨by decide, by decide, h.1, h.2.1⟩

theorem wordsOf_replicate (n x : Nat) :
    wordsOf (List.replicate (2 * n) x) =
      List.replicate n ((x % 256) * 256 + (x % 256)) := by
  induction n with
  | zero => rfl
  | succ n ih =>
      have h2 : 2 * (n + 1) = 2 * n + 1 + 1 := by ring
      rw [h2, List.replicate_succ, List.replicate_succ, wordsOf, ih, List.replicate_succ]

/-- Claim C2, counterexample: the 32-bit accumulator of `Checksum` wraps
on the 131076-byte all-0xff input (word sum 65538 × 0xffff ≥ 2^32), so
the carry that crosses bit 31 is discarded instead of folded, and the
code returns 1 where the algorithm described by the claim — and the true
RFC 1071 one's-complement checksum of that input — returns 0. -/
theorem claim_C2_counterexample :
    Checksum (List.replicate 131076 255) = 1 ∧
    checksumSpec (List.replicate 131076 255) = 0 := by
  have hw : wordsOf (List.replicate 131076 255) = List.replicate 65538 65535 := by
    have h := wordsOf_replicate 65538 255
    norm_num at h
    exact h
  have hsum : (wordsOf (List.replicate 131076 255)).sum = 4295032830 := by
    rw [hw, List.sum_replicate, smul_eq_mul]
  constructor
  · rw [Checksum_unfold, icmpSumAux_eq _ 0 (by norm_num), Nat.zero_add, hsum]
    norm_num
    rw [foldCarry_eq_of_lt (by norm_num)]
  · rw [checksumSpec_unfold, hsum]
    rw [foldCarry_step (by decide)]
    rw [show (4295032830 &&& 65535) + (4295032830 >>> 16) = 131070 from by decide]
    rw [foldCarry_step (by decide)]
    rw [show (131070 &&& 65535) + (131070 >>> 16) = 65535 from by decide]
    rw [foldCarry_eq_of_lt (by decide)]

/-- Claim C2 as amended: `Checksum` follows the RFC 1071 algorithm with
its 32-bit accumulator — big-endian 16-bit words, odd trailing byte as a
zero-padded high byte, carry folding, complement — and agrees with the
unbounded-sum reading of the algorithm on every input whose word sum
fits in 32 bits, which includes every input of at most 131070 bytes
(65535 words); on the RFC 1071 worked example it returns 0xb861. -/
theorem claim_C2_amended :
    (∀ b : List Nat, (wordsOf b).sum < 4294967296 → Checksum b = checksumSpec b) ∧
    (∀ b : List Nat, b.length ≤ 131070 → (wordsOf b).sum < 4294967296) ∧
    Checksum testVector = 0xb861 := by
  refine ⟨?_, ?_, ?_⟩
  · intro b h
    rw [Checksum_unfold, checksumSpec_unfold, icmpSumAux_eq b 0 (by norm_num),
      Nat.zero_add, Nat.mod_eq_of_lt h]
  · intro b hlen
    have hle := List.sum_le_card_nsmul (wordsOf b) 65535 (wordsOf_le b)
    rw [smul_eq_mul, wordsOf_length] at hle
    have hq : (b.length + 1) / 2 ≤ 65535 := by omega
    have h2 : (b.length + 1) / 2 * 65535 ≤ 65535 * 65535 :=
      Nat.mul_le_mul_right 65535 hq
    omega
  · have h1 : icmpSumAux testVector 0 = 149404 := by decide
    have h2 : foldCarry 149404 = 18334 := by
      rw [foldCarry_step (by decide)]
      rw [show (149404 &&& 65535) + (149404 >>> 16) = 18334 from by decide]
      exact foldCarry_eq_of_lt (by decide)
    rw [Checksum_unfold, h1, h2]

/-- Claim C2 witness: on the 20-byte worked example the word sum fits in
32 bits and the code agrees with the spec algorithm. -/
theorem claim_C2_witness :
    (wordsOf testVector).sum < 4294967296 ∧
    testVector.length ≤ 131070 ∧
    Checksum testVector = checksumSpec testVector :=
  ⟨by decide, by decide, claim_C2_amended.1 testVector (by decide)⟩

theorem insert_complement (S32 : Nat) (hS32 : S32 < 4294967296) :
    foldCarry ((S32 + (65535 - foldCarry S32)) % 4294967296) = 65535 := by
  have hflt : foldCarry S32 < 65536 := foldCarry_lt S32
  by_cases hf : foldCarry S32 = 65535
  · rw [hf]
    norm_num
    rw [Nat.mod_eq_of_lt hS32, hf]
  · have hfval : foldCarry S32 = S32 % 65535 := by
      have hm := foldCarry_mod S32
      have : foldCarry S32 % 65535 = foldCarry S32 := Nat.mod_eq_of_lt (by omega)
      rw [this] at hm
      exact hm
    by_cases hz : S32 % 65535 = 0
    · have hS0 : S32 = 0 := by
        by_contra hS0
        exact hf (foldCarry_of_multiple (by omega) hz)
      subst hS0
      have hf0 : foldCarry 0 = 0 := foldCarry_eq_of_lt (by norm_num)
      rw [hf0]
      have harg : (0 + (65535 - 0)) % 4294967296 = 65535 := by norm_num
      rw [harg]
      exact foldCarry_eq_of_lt (by norm_num)
    · have hlt : S32 + (65535 - foldCarry S32) < 4294967296 := by
        rw [hfval]
        omega
      rw [Nat.mod_eq_of_lt hlt]
      apply foldCarry_of_multiple
      · omega
      · rw [hfval]
        omega

/-- Claim C8: for every byte sequence whose 16-bit checksum field (bytes
2 and 3) is zero, computing `Checksum`, writing the result into the
field, and recomputing `Checksum` over the full message yields zero —
even when the 32-bit accumulator wraps, since the inserted complement
can never push the wrapped sum across 2^32 again. -/
theorem claim_C8 :
    ∀ (b0 b1 : Nat) (rest : List Nat),
      Checksum (insertChecksum (b0 :: b1 :: 0 :: 0 :: rest)
        (Checksum (b0 :: b1 :: 0 :: 0 :: rest))) = 0 := by
  intro b0 b1 rest
  have hS32def : icmpSumAux (b0 :: b1 :: 0 :: 0 :: rest) 0 =
      (wordsOf (b0 :: b1 :: 0 :: 0 :: rest)).sum % 4294967296 := by
    rw [icmpSumAux_eq _ 0 (by norm_num), Nat.zero_add]
  have hcval : Checksum (b0 :: b1 :: 0 :: 0 :: rest) =
      65535 - foldCarry ((wordsOf (b0 :: b1 :: 0 :: 0 :: rest)).sum % 4294967296) := by
    rw [Checksum_unfold, hS32def]
  have hclt : Checksum (b0 :: b1 :: 0 :: 0 :: rest) < 65536 := by
    rw [hcval]
    omega
  have hins : insertChecksum (b0 :: b1 :: 0 :: 0 :: rest)
      (Checksum (b0 :: b1 :: 0 :: 0 :: rest)) =
      b0 :: b1 :: ((Checksum (b0 :: b1 :: 0 :: 0 :: rest) >>> 8) % 256) ::
        (Checksum (b0 :: b1 :: 0 :: 0 :: rest) % 256) :: rest := by
    simp [insertChecksum]
  have hword : wordsOf (b0 :: b1 :: ((Checksum (b0 :: b1 :: 0 :: 0 :: rest) >>> 8) % 256) ::
      (Checksum (b0 :: b1 :: 0 :: 0 :: rest) % 256) :: rest) =
      ((b0 % 256) * 256 + (b1 % 256)) :: Checksum (b0 :: b1 :: 0 :: 0 :: rest) ::
        wordsOf rest := by
    rw [wordsOf, wordsOf]
    have hmid : (Checksum (b0 :: b1 :: 0 :: 0 :: rest) >>> 8) % 256 % 256 * 256 +
        Checksum (b0 :: b1 :: 0 :: 0 :: rest) % 256 % 256 =
        Checksum (b0 :: b1 :: 0 :: 0 :: rest) := by
      rw [Nat.shiftRight_eq_div_pow]
      omega
    rw [hmid]
  have hword0 : wordsOf (b0 :: b1 :: 0 :: 0 :: rest) =
      ((b0 % 256) * 256 + (b1 % 256)) :: 0 :: wordsOf rest := by
    rw [wordsOf, wordsOf]
  have hsum1 : (wordsOf (b0 :: b1 :: ((Checksum (b0 :: b1 :: 0 :: 0 :: rest) >>> 8) % 256) ::
      (Checksum (b0 :: b1 :: 0 :: 0 :: rest) % 256) :: rest)).sum =
      (wordsOf (b0 :: b1 :: 0 :: 0 :: rest)).sum +
        Checksum (b0 :: b1 :: 0 :: 0 :: rest) := by
    rw [hword, hword0]
    simp only [List.sum_cons]
    ring
  rw [hins, Checksum_unfold, icmpSumAux_eq _ 0 (by norm_num), Nat.zero_add, hsum1]
  have hmod2 : ((wordsOf (b0 :: b1 :: 0 :: 0 :: rest)).sum +
      Checksum (b0 :: b1 :: 0 :: 0 :: rest)) % 4294967296 =
      (((wordsOf (b0 :: b1 :: 0 :: 0 :: rest)).sum % 4294967296) +
        Checksum (b0 :: b1 :: 0 :: 0 :: rest)) % 4294967296 := by
    omega
  rw [hmod2, hcval, insert_complement _ (Nat.mod_lt _ (by norm_num))]

end Pulse
